import Mathlib

/-!
# Channel playlist & rotation engine: a shallow embedding

This file embeds the queue/rotation/deletion core of `radio/util.py` and the
queue-mutation endpoints of `radio/views.py` as executable Lean definitions,
and proves (or refutes) the specified properties about them.

Conventions of the embedding:
* Timestamps are integers (seconds); `timedelta(hours=3)` is `3 * 3600`, etc.
* The Redis store is an association list of channel documents plus the global
  `pending_remove` document.  A Python `None` is `Option.none`.
* Exceptions are modelled by `Option`/explicit outcome values.
* `random.sample` is modelled by returning the queryset ("pool") and the draw
  size; endpoints that consume the draw take the drawn list as a parameter.
-/

namespace RadioModel

/-- A playlist / now-playing entry: the denormalized track snapshot stored in
the channel document (`{id, location, artist, title}`). -/
structure Entry where
  id : Int
  location : String
  artist : String
  title : String
deriving DecidableEq, Repr

/-- One channel's stored document `{"now_playing": ..., "playlist": ...}`.
Either field may be JSON `null` (`none`). -/
structure ChannelState where
  now_playing : Option Entry
  playlist : Option (List Entry)
deriving DecidableEq, Repr

/-- Modelled from the spec (§3): the `Track` catalog row.  `radio/models.py`
is not among the provided sources; the fields are exactly those §3 lists and
the two source files read: `id`, `channel` (list of channel tags),
`location`, `artist`, `title`, `last_played_at` (nullable), `uploaded_at`. -/
structure Track where
  id : Int
  channel : List String
  location : String
  artist : String
  title : String
  last_played_at : Option Int
  uploaded_at : Int
deriving DecidableEq, Repr

/-- The Redis key space used by the code: one document per channel key plus
the global `pending_remove` document.  For `pending`, the outer `Option` is
key presence and the inner `Option` is the `"list"` field (JSON-null or a
list of track ids). -/
structure Redis where
  channels : List (String × ChannelState)
  pending : Option (Option (List Int))
deriving DecidableEq, Repr

/-- Association-list read (`redis_server.get(channel)`). -/
def assocGet : List (String × ChannelState) → String → Option ChannelState
  | [], _ => none
  | (k, v) :: t, c => if k = c then some v else assocGet t c

/-- Association-list write (`redis_server.set(channel, ...)`). -/
def assocSet : List (String × ChannelState) → String → ChannelState → List (String × ChannelState)
  | [], c, v => [(c, v)]
  | (k, w) :: t, c, v => if k = c then (c, v) :: t else (k, w) :: assocSet t c v

def Redis.lookup (r : Redis) (c : String) : Option ChannelState :=
  assocGet r.channels c

def Redis.store (r : Redis) (c : String) (v : ChannelState) : Redis :=
  { r with channels := assocSet r.channels c v }

/-- The `now_playing.id` currently stored for a channel, if any. -/
def nowId (r : Redis) (c : String) : Option Int :=
  ((r.lookup c).bind ChannelState.now_playing).map Entry.id

/-- The `playlist` field currently stored for a channel (through the key). -/
def playlistOf (r : Redis) (c : String) : Option (List Entry) :=
  (r.lookup c).bind ChannelState.playlist

/-- Embeds `get_redis_data` (util.py:27–40).  On a missing key the code
stores the default `{"now_playing": None, "playlist": None}` and then calls
`json.loads(raw_json)` with `raw_json = None`; the raised `TypeError` is
caught by the bare `except`, so the call returns `None` — not the freshly
stored default. -/
def get_redis_data (r : Redis) (channel : String) : Option ChannelState × Redis :=
  match r.lookup channel with
  | none => (none, r.store channel ⟨none, none⟩)
  | some doc => (some doc, r)

/-- Embeds `set_redis_data(channel, "playlist", value)` (util.py:43–46); the
`"playlist"` key is the only one the embedded callers pass.  `none` is the
`TypeError` Python raises indexing into the `None` that `get_redis_data`
returns on a first access. -/
def set_redis_data (r : Redis) (channel : String) (value : Option (List Entry)) :
    Option Redis :=
  let p := get_redis_data r channel
  match p.1 with
  | none => none
  | some doc => some (p.2.store channel { doc with playlist := value })

/-- Embeds `get_pending_remove` (util.py:49–61); same first-access behaviour
as `get_redis_data`: stores `{"list": None}` and returns `None`. -/
def get_pending_remove (r : Redis) : Option (Option (List Int)) × Redis :=
  match r.pending with
  | none => (none, { r with pending := some none })
  | some l => (some l, r)

/-- Embeds `set_pending_remove` (util.py:64–67).  `none` is the `TypeError`
raised indexing into a `None` result of `get_pending_remove`. -/
def set_pending_remove (r : Redis) (remove_list : Option (List Int)) : Option Redis :=
  let p := get_pending_remove r
  match p.1 with
  | none => none
  | some _ => some { p.2 with pending := some remove_list }

/-- Embeds `get_is_pending_remove` (util.py:70–84). -/
def get_is_pending_remove (r : Redis) (track_id : Int) : Bool × Redis :=
  let p := get_pending_remove r
  match p.1 with
  | none => (false, p.2)
  | some none => (false, p.2)
  | some (some l) => (decide (track_id ∈ l), p.2)

/-- Django `Q` filter nodes, restricted to the node shapes `get_random_track`
builds.  `channelIcontains` is modelled as channel-tag membership: the
`channel__icontains` lookup substring-matches the serialized tag list, and
every tag used here is a whole channel name (spec §3: "tracks tagged with
channel"). -/
inductive Q where
  | channelIcontains (channel : String)
  | notId (i : Int)
  | lastPlayedLt (t : Int)
  | lastPlayedNoneUploadedGt (t : Int)
  | or (a b : Q)
deriving DecidableEq, Repr

/-- Python truthiness of a Q object: `bool(q)` is `bool(q.children)`.  Every
node built in `get_random_track` has at least one child (a keyword argument,
a negated subtree, or two OR operands), so each is truthy. -/
def Q.truthy : Q → Bool
  | .channelIcontains _ => true
  | .notId _ => true
  | .lastPlayedLt _ => true
  | .lastPlayedNoneUploadedGt _ => true
  | .or _ _ => true

/-- Python `a and b` applied to Q objects — the source writes `and`, not the
Q-combinator `&`, so the result is the right operand whenever the left one is
truthy. -/
def pyAnd (a b : Q) : Q := if a.truthy then b else a

/-- The rows a Q tree selects. -/
def Q.matches : Q → Track → Bool
  | .channelIcontains c, t => decide (c ∈ t.channel)
  | .notId i, t => decide (t.id ≠ i)
  | .lastPlayedLt b, t =>
      match t.last_played_at with
      | some lp => decide (lp < b)
      | none => false
  | .lastPlayedNoneUploadedGt a, t =>
      match t.last_played_at with
      | some _ => false
      | none => decide (t.uploaded_at > a)
  | .or p q, t => p.matches t || q.matches t

/-- Embeds `get_random_track` (util.py:110–168) up to the final random draw.
Returns `none` for the uncaught `TypeError` of `redis_data["now_playing"]`
when `get_redis_data` produced `None` (only `IndexError` is caught there).
Otherwise returns the queryset (`tracks`, in catalog order) and `count_track`
(the draw size); `random.sample(list(tracks), count_track)` then yields some
`count_track`-element selection of that pool. -/
def get_random_track (db : List Track) (r : Redis) (channel : String) (samples : Nat)
    (now : Int) : Option (List Track × Nat) × Redis :=
  let p := get_redis_data r channel
  match p.1 with
  | none => (none, p.2)
  | some doc =>
    let now_play_track_id : Option Int := (doc.now_playing).map Entry.id
    let last_play_track_id : Option Int :=
      match doc.playlist with
      | none => none
      | some pl => if pl.isEmpty then none else pl.getLast?.map Entry.id
    let base_time : Int := now - 3 * 3600
    let after_10minute : Int := now - 10 * 60
    let filters0 : Q := .channelIcontains channel
    let filters1 : Q :=
      match now_play_track_id with
      | some i => pyAnd filters0 (.notId i)
      | none => filters0
    let filters2 : Q :=
      match last_play_track_id with
      | some j => if now_play_track_id ≠ some j then pyAnd filters1 (.notId j) else filters1
      | none => filters1
    let timeQ : Q := .or (.lastPlayedLt base_time) (.lastPlayedNoneUploadedGt after_10minute)
    let tracks := db.filter (fun t => (pyAnd timeQ filters2).matches t)
    let tracks := if tracks.length < 1 then db.filter (fun t => filters2.matches t) else tracks
    let count_track := if tracks.length > samples then samples else tracks.length
    (some (tracks, count_track), p.2)

/-- Follows the spec's words (§4.2 steps 2–3), for comparison with the query
the source actually builds: tracks tagged with the channel, matching
`(last_played_at < now − 3h) OR (last_played_at IS NULL AND uploaded_at >
now − 10m)`, minus `excludeIds`. -/
def spec_primary_candidates (db : List Track) (channel : String) (excludeIds : List Int)
    (now : Int) : List Track :=
  db.filter (fun t =>
    decide (channel ∈ t.channel) &&
    (match t.last_played_at with
     | some lp => decide (lp < now - 3 * 3600)
     | none => decide (t.uploaded_at > now - 10 * 60)) &&
    !(excludeIds.contains t.id))

/-- Follows the spec's words (§4.2 step 4): the fallback candidate set —
all tracks tagged with the channel, minus `excludeIds`. -/
def spec_fallback_candidates (db : List Track) (channel : String) (excludeIds : List Int) :
    List Track :=
  db.filter (fun t => decide (channel ∈ t.channel) && !(excludeIds.contains t.id))

/-- Python `list.pop(i)`: negative indices count from the end; an index out of
`[-len, len)` raises `IndexError` (`none`).  Returns the element and the
shortened list. -/
def pyPop {α : Type} (l : List α) (i : Int) : Option (α × List α) :=
  let j : Int := if i < 0 then i + l.length else i
  if 0 ≤ j ∧ j < (l.length : Int) then
    match l[j.toNat]? with
    | some x => some (x, l.eraseIdx j.toNat)
    | none => none
  else none

/-- Insertion at a clamped position (helper for `pyInsert`). -/
def insertAtNat {α : Type} : Nat → α → List α → List α
  | 0, x, l => x :: l
  | _ + 1, x, [] => [x]
  | n + 1, x, a :: l => a :: insertAtNat n x l

/-- Python `list.insert(i, x)`: never raises — negative indices count from the
end and the position is clamped to `[0, len]`. -/
def pyInsert {α : Type} (l : List α) (i : Int) (x : α) : List α :=
  let j : Int := if i < 0 then max (i + l.length) 0 else min i l.length
  insertAtNat j.toNat x l

/-- Embeds the playlist purge loop of `delete_track` (util.py:202–205): a
Python `for music in playlist` that pops while iterating.  The iterator keeps
a position counter `i` that advances every step even when `playlist.pop`
shifted the remaining elements left; `playlist.index(music)` finds the first
entry equal (as a whole record) to the current one. -/
def purge_playlist_loop (tid : Int) (i : Nat) (l : List Entry) : List Entry :=
  if h : i < l.length then
    let music := l.get ⟨i, h⟩
    if music.id = tid then
      match l.findIdx? (fun a => a = music) with
      | some j => purge_playlist_loop tid (i + 1) (l.eraseIdx j)
      | none => purge_playlist_loop tid (i + 1) l
    else purge_playlist_loop tid (i + 1) l
  else l
termination_by l.length - i
decreasing_by
  all_goals first
    | omega
    | (have hle : (l.eraseIdx j).length ≤ l.length := l.length_eraseIdx_le j
       omega)

/-- How an execution of `delete_track` ends: reaching `track.delete()`, one of
the two `ValidationError` raises of the reservation branch, or the `TypeError`
of subscripting the `None` that `get_pending_remove` returns on the very
first access of the `pending_remove` key. -/
inductive DeleteOutcome where
  | deleted
  | reservedPending
  | alreadyReserved
  | typeError
deriving DecidableEq, Repr

/-- Embeds the reservation branch of `delete_track` (util.py:183–197),
entered when the track is the channel's current `now_playing` and `force` is
off: consult the pending document, reject a repeat request, otherwise append
the id and raise the "Pending remove reserved" condition.  The `TypeError`
arises subscripting the `None` that `get_pending_remove` returns on the very
first access of the key. -/
def reserve_phase (t : Track) (r : Redis) : Option DeleteOutcome × Redis :=
  let q := get_pending_remove r
  match q.1 with
  | none => (some .typeError, q.2)
  | some pending_list =>
    let b := get_is_pending_remove q.2 t.id
    if b.1 then (some .alreadyReserved, b.2)
    else
      let newList : List Int :=
        match pending_list with
        | none => [t.id]
        | some l => l ++ [t.id]
      match set_pending_remove b.2 (some newList) with
      | none => (some .typeError, b.2)
      | some r4 => (some .reservedPending, r4)

/-- Embeds the playlist scrub of `delete_track` (util.py:199–207): when the
channel document has a non-empty playlist (`if redis_data["playlist"]:`),
remove the track's entries and persist the result. -/
def playlist_purge_phase (t : Track) (c : String) (doc : ChannelState) (r1 : Redis) :
    Redis :=
  match doc.playlist with
  | none => r1
  | some pl =>
    if pl.isEmpty then r1
    else
      match set_redis_data r1 c (some (purge_playlist_loop t.id 0 pl)) with
      | none => r1
      | some r2 => r2

/-- One iteration of the channel loop of `delete_track` (util.py:175–207) for
channel `c`.  The first component is `some outcome` when an exception aborts
the whole call, `none` when the loop continues with the next channel. -/
def delete_track_channel_step (t : Track) (force : Bool) (c : String) (r : Redis) :
    Option DeleteOutcome × Redis :=
  let p := get_redis_data r c
  match p.1 with
  | none => (none, p.2)
  | some doc =>
    let np_result : Option DeleteOutcome × Redis :=
      match doc.now_playing with
      | none => (none, p.2)
      | some np =>
        if np.id = t.id then
          if force then (none, p.2) else reserve_phase t p.2
        else (none, p.2)
    match np_result with
    | (some out, r1) => (some out, r1)
    | (none, r1) => (none, playlist_purge_phase t c doc r1)

/-- The channel loop of `delete_track`, short-circuiting on a raise. -/
def delete_channels (t : Track) (force : Bool) : List String → Redis →
    Option DeleteOutcome × Redis
  | [], r => (none, r)
  | c :: rest, r =>
    match delete_track_channel_step t force c r with
    | (some out, r1) => (some out, r1)
    | (none, r1) => delete_channels t force rest r1

/-- Embeds `delete_track` (util.py:171–217).  The blob removal
(`storage.delete_file`, util.py:209–215) targets the external object store
and has no effect on the modelled state; `track.delete()` removes the
catalog row. -/
def delete_track (db : List Track) (r : Redis) (t : Track) (force : Bool) :
    DeleteOutcome × List Track × Redis :=
  match delete_channels t force t.channel r with
  | (some out, r1) => (out, db, r1)
  | (none, r1) => (.deleted, db.filter (fun x => decide (x.id ≠ t.id)), r1)

/-- Catalog lookup `Track.objects.get(id=track_id)` (ids are unique). -/
def dbGet (db : List Track) (tid : Int) : Option Track :=
  db.find? (fun t => decide (t.id = tid))

/-- The drain loop of `remove_pending_track` (util.py:98–106), applied to the
pending ids in pop order (`list.pop()` takes the last element first, so the
caller passes the reversed list).  Missing tracks are skipped. -/
def remove_pending_loop : List Int → List Track → Redis → List Track × Redis
  | [], db, r => (db, r)
  | tid :: rest, db, r =>
    match dbGet db tid with
    | none => remove_pending_loop rest db r
    | some track =>
      let s := delete_track db r track true
      remove_pending_loop rest s.2.1 s.2.2

/-- Embeds `remove_pending_track` (util.py:87–107): drains the pending list
LIFO, force-deleting each still-existing track, then persists the drained
(now empty) list — or `None` when the `"list"` field was `None`. -/
def remove_pending_track (db : List Track) (r : Redis) : List Track × Redis :=
  let p := get_pending_remove r
  match p.1 with
  | none => (db, p.2)
  | some none =>
    match set_pending_remove p.2 none with
    | none => (db, p.2)
    | some r1 => (db, r1)
  | some (some l) =>
    let s := remove_pending_loop l.reverse db p.2
    match set_pending_remove s.2 (some []) with
    | none => (s.1, s.2)
    | some r1 => (s.1, r1)

/-- Daemon notification payload: the full playlist (`"data": playlist`) or
the single-index delta (`"data": {"index_at": index}`). -/
inductive Payload where
  | playlist (pl : List Entry)
  | indexAt (i : Int)
deriving DecidableEq, Repr

/-- The body POSTed to the playback daemon:
`{host, target, command, data}`. -/
structure DaemonMsg where
  host : String
  target : String
  command : String
  data : Payload
deriving DecidableEq, Repr

/-- Observable side effects of an endpoint, in execution order: persisting a
channel's playlist (`set_redis_data`) and the fire-and-forget daemon call
(`api.request_async_threaded`, dispatched with `callback=None`, so no
delivery outcome ever flows back into the endpoint). -/
inductive Effect where
  | persist (channel : String) (pl : List Entry)
  | notify (msg : DaemonMsg)
deriving DecidableEq, Repr

/-- How an endpoint answers: an HTTP success code, a raised
`ValidationError`, or an uncaught Python exception
(`TypeError`/`AttributeError`/`IndexError`). -/
inductive ApiResult where
  | ok (code : Nat)
  | validationError
  | pyError
deriving DecidableEq, Repr

def ApiResult.isError : ApiResult → Bool
  | .ok _ => false
  | .validationError => true
  | .pyError => true

/-- The queue-entry snapshot the views build from a catalog row:
`{"id": track.id, "location": "/srv/media/%s" % track.location, ...}`. -/
def entryOf (t : Track) : Entry :=
  ⟨t.id, "/srv/media/" ++ t.location, t.artist, t.title⟩

/-- Embeds `QueueINAPI.get` (views.py:455–488).  `SERVICE_CHANNEL` lives in
`radio/models.py`, which is not among the sources; it is passed as the
parameter `svc`.  The URL-captured `index` is an integer (the code applies
`int(index)`). -/
def QueueINAPI_get (svc : List String) (db : List Track) (r : Redis) (channel : String)
    (track_id : Int) (index : Int) : ApiResult × Redis × List Effect :=
  if channel ∉ svc then (.validationError, r, [])
  else match dbGet db track_id with
  | none => (.validationError, r, [])
  | some track =>
    let b := get_is_pending_remove r track_id
    if b.1 then (.validationError, b.2, [])
    else
      let p := get_redis_data b.2 channel
      match p.1 with
      | none => (.pyError, p.2, [])
      | some doc =>
        match doc.playlist with
        | none => (.pyError, p.2, [])
        | some playlist =>
          let new_track := entryOf track
          let playlist1 := pyInsert playlist index new_track
          match set_redis_data p.2 channel (some playlist1) with
          | none => (.pyError, p.2, [])
          | some r1 =>
            (.ok 201, r1,
             [.persist channel playlist1,
              .notify ⟨"server", channel, "setlist", .playlist playlist1⟩])

/-- Embeds `QueueMoveAPI.get` (views.py:501–518):
`playlist.insert(to_index, playlist.pop(from_index))`, then persist, then
notify `"setlist"`.  The URL-captured indices are taken as integers
(`radio/urls.py` is not among the sources; spec §3 treats the index
operations as 0-indexed integer positions). -/
def QueueMoveAPI_get (svc : List String) (r : Redis) (channel : String)
    (from_index to_index : Int) : ApiResult × Redis × List Effect :=
  if channel ∉ svc then (.validationError, r, [])
  else
    let p := get_redis_data r channel
    match p.1 with
    | none => (.pyError, p.2, [])
    | some doc =>
      match doc.playlist with
      | none => (.pyError, p.2, [])
      | some playlist =>
        match pyPop playlist from_index with
        | none => (.pyError, p.2, [])
        | some (x, playlist1) =>
          let playlist2 := pyInsert playlist1 to_index x
          match set_redis_data p.2 channel (some playlist2) with
          | none => (.pyError, p.2, [])
          | some r1 =>
            (.ok 201, r1,
             [.persist channel playlist2,
              .notify ⟨"server", channel, "setlist", .playlist playlist2⟩])

/-- Embeds `QueueOUTAPI.delete` (views.py:531–550): `playlist.pop(index)`,
persist, then notify `"unqueue"` with the delta payload `{"index_at": index}`. -/
def QueueOUTAPI_delete (svc : List String) (r : Redis) (channel : String) (index : Int) :
    ApiResult × Redis × List Effect :=
  if channel ∉ svc then (.validationError, r, [])
  else
    let p := get_redis_data r channel
    match p.1 with
    | none => (.pyError, p.2, [])
    | some doc =>
      match doc.playlist with
      | none => (.pyError, p.2, [])
      | some playlist =>
        match pyPop playlist index with
        | none => (.pyError, p.2, [])
        | some (_, playlist1) =>
          match set_redis_data p.2 channel (some playlist1) with
          | none => (.pyError, p.2, [])
          | some r1 =>
            (.ok 202, r1,
             [.persist channel playlist1,
              .notify ⟨"server", channel, "unqueue", .indexAt index⟩])

/-- Embeds `CallbackOnStopAPI.post` (views.py:639–665): reconcile pending
removals, draw one replenishment track, append it to the playlist and
persist.  `sample` is the outcome of the `random.sample` inside
`get_random_track` (the endpoint reads `random_tracks[0]`).  No
`api.request_async_threaded` call occurs in this endpoint — the new track is
returned in the HTTP response body instead.  The persist effects of the
reconciliation pass itself are internal to `remove_pending_track` and not
traced. -/
def CallbackOnStopAPI_post (svc : List String) (db : List Track) (r : Redis)
    (channel : String) (now : Int) (sample : List Track) :
    ApiResult × List Track × Redis × List Effect :=
  if channel ∉ svc then (.validationError, db, r, [])
  else
    let s := remove_pending_track db r
    let g := get_random_track s.1 s.2 channel 1 now
    match g.1 with
    | none => (.pyError, s.1, g.2, [])
    | some _ =>
      match sample with
      | [] => (.ok 200, s.1, g.2, [])
      | next_track :: _ =>
        let new_track := entryOf next_track
        let p := get_redis_data g.2 channel
        match p.1 with
        | none => (.pyError, s.1, p.2, [])
        | some doc =>
          match doc.playlist with
          | none => (.pyError, s.1, p.2, [])
          | some playlist =>
            let playlist1 := playlist ++ [new_track]
            match set_redis_data p.2 channel (some playlist1) with
            | none => (.pyError, s.1, p.2, [])
            | some r1 => (.ok 200, s.1, r1, [.persist channel playlist1])

/-- The operations of the deletion subsystem whose interleavings claim C9
quantifies over: a non-force delete request and a reconciliation pass. -/
inductive Op where
  | requestDelete (t : Track)
  | reconcile
deriving Repr

def applyOp (s : List Track × Redis) : Op → List Track × Redis
  | .requestDelete t =>
    let d := delete_track s.1 s.2 t false
    (d.2.1, d.2.2)
  | .reconcile => remove_pending_track s.1 s.2

def runOps (s : List Track × Redis) : List Op → List Track × Redis
  | [] => s
  | op :: rest => runOps (applyOp s op) rest

/-- The stored pending-removal list (when present as a list) has no
duplicate ids. -/
def PendingNodup (r : Redis) : Prop :=
  ∀ l, r.pending = some (some l) → l.Nodup

/-- How one internal store operation can evolve a channel document: left
unchanged, created as the `{None, None}` default, or its playlist rewritten
(only ever from an existing list-valued playlist). -/
def DocEvol : Option ChannelState → Option ChannelState → Prop := fun o o1 =>
  o1 = o ∨
  (o = none ∧ o1 = some ⟨none, none⟩) ∨
  (∃ d pl pl1, o = some d ∧ d.playlist = some pl ∧ o1 = some { d with playlist := some pl1 })

/-- Pointwise document evolution across a state transformer: no internal
store operation of the deletion/reconciliation core does anything else to
a channel document. -/
def RedisEvol (r r1 : Redis) : Prop :=
  ∀ c, DocEvol (r.lookup c) (r1.lookup c)

/-! ## Concrete states used by the counterexamples and witnesses -/

/-- A reference instant (seconds). -/
def T0 : Int := 1000000

def eA1 : Entry := ⟨1, "a.mp3", "A", "T1"⟩
def eB2 : Entry := ⟨2, "b.mp3", "B", "T2"⟩

/-- Track 1, tagged "trance", played 100 s ago (inside the 3-hour window). -/
def trA1 : Track := ⟨1, ["trance"], "a.mp3", "A", "T1", some (T0 - 100), T0 - 50000⟩

/-- Track 2, tagged "trance", played 200 s ago. -/
def trB2 : Track := ⟨2, ["trance"], "b.mp3", "B", "T2", some (T0 - 200), T0 - 50000⟩

/-- Track 3, tagged "trance", played 300 s ago. -/
def trC3 : Track := ⟨3, ["trance"], "c.mp3", "C", "T3", some (T0 - 300), T0 - 50000⟩

/-- Track 9, tagged "house" only, played 100 s ago. -/
def trH9 : Track := ⟨9, ["house"], "h.mp3", "H", "T9", some (T0 - 100), T0 - 50000⟩

/-- Track 8, tagged "house" only, last played 20000 s ago (outside 3 h). -/
def trH8 : Track := ⟨8, ["house"], "g.mp3", "G", "T8", some (T0 - 20000), T0 - 50000⟩

/-- Channel "trance" now playing track 1, playlist ending in track 2. -/
def rNowA_lastB : Redis := ⟨[("trance", ⟨some eA1, some [eB2]⟩)], some (some [])⟩

/-- Channel "trance" now playing track 1, empty playlist. -/
def rNowA_emptyPl : Redis := ⟨[("trance", ⟨some eA1, some []⟩)], some (some [])⟩

/-- A store with no channel documents at all. -/
def rFresh : Redis := ⟨[], some (some [])⟩

/-- Track 1 now playing on "trance"; the `pending_remove` key was never
accessed (absent). -/
def rNowA_noPending : Redis := ⟨[("trance", ⟨some eA1, none⟩)], none⟩

/-- Track 1 now playing on "trance"; `pending_remove` document present with a
JSON-null list (the state the first access leaves behind). -/
def rNowA_nullPending : Redis := ⟨[("trance", ⟨some eA1, none⟩)], some none⟩

/-- Track 1 now playing on "trance" and already reserved for removal. -/
def rNowA_pending1 : Redis := ⟨[("trance", ⟨some eA1, none⟩)], some (some [1])⟩

/-- Channel "trance" idle, playlist `[track1, track2]`, empty pending list. -/
def rIdlePl2 : Redis := ⟨[("trance", ⟨none, some [eA1, eB2]⟩)], some (some [])⟩

/-- Channel "trance" in the lazily-created default state
`{now_playing: null, playlist: null}`. -/
def rNullPl : Redis := ⟨[("trance", ⟨none, none⟩)], some (some [])⟩

/-- A five-entry playlist for the move example. -/
def eL1 : Entry := ⟨11, "1.mp3", "a1", "s1"⟩
def eL2 : Entry := ⟨12, "2.mp3", "a2", "s2"⟩
def eL3 : Entry := ⟨13, "3.mp3", "a3", "s3"⟩
def eL4 : Entry := ⟨14, "4.mp3", "a4", "s4"⟩
def eL5 : Entry := ⟨15, "5.mp3", "a5", "s5"⟩

/-- Channel "trance" idle with the five-entry playlist. -/
def rPl5 : Redis := ⟨[("trance", ⟨none, some [eL1, eL2, eL3, eL4, eL5]⟩)], some (some [])⟩

/-! ## Store lemmas -/

theorem assocGet_set_self (l : List (String × ChannelState)) (c : String) (v : ChannelState) :
    assocGet (assocSet l c v) c = some v := by
  induction l with
  | nil => simp [assocGet, assocSet]
  | cons hd tl ih =>
    by_cases h : hd.1 = c
    · simp [assocSet, assocGet, h]
    · simp [assocSet, assocGet, h, ih]

theorem assocGet_set_ne (l : List (String × ChannelState)) (c c' : String) (v : ChannelState)
    (h : c ≠ c') : assocGet (assocSet l c v) c' = assocGet l c' := by
  induction l with
  | nil => simp [assocGet, assocSet, h]
  | cons hd tl ih =>
    by_cases hk : hd.1 = c
    · simp [assocSet, assocGet, hk, h]
    · simp only [assocSet, hk, if_false]
      by_cases hk' : hd.1 = c'
      · simp [assocGet, hk']
      · simp [assocGet, hk', ih]

theorem Redis.lookup_store_self (r : Redis) (c : String) (v : ChannelState) :
    (r.store c v).lookup c = some v := assocGet_set_self r.channels c v

theorem Redis.lookup_store_ne (r : Redis) (c c' : String) (v : ChannelState) (h : c ≠ c') :
    (r.store c v).lookup c' = r.lookup c' := assocGet_set_ne r.channels c c' v h

theorem Redis.store_pending (r : Redis) (c : String) (v : ChannelState) :
    (r.store c v).pending = r.pending := rfl

theorem get_redis_data_of_lookup {r : Redis} {c : String} {doc : ChannelState}
    (h : r.lookup c = some doc) : get_redis_data r c = (some doc, r) := by
  simp [get_redis_data, h]

theorem get_redis_data_of_none {r : Redis} {c : String} (h : r.lookup c = none) :
    get_redis_data r c = (none, r.store c ⟨none, none⟩) := by
  simp [get_redis_data, h]

theorem set_redis_data_of_lookup {r : Redis} {c : String} {doc : ChannelState}
    (h : r.lookup c = some doc) (v : Option (List Entry)) :
    set_redis_data r c v = some (r.store c { doc with playlist := v }) := by
  simp [set_redis_data, get_redis_data, h]

theorem get_pending_remove_of_some {r : Redis} {l : Option (List Int)}
    (h : r.pending = some l) : get_pending_remove r = (some l, r) := by
  simp [get_pending_remove, h]

theorem get_pending_remove_of_none {r : Redis} (h : r.pending = none) :
    get_pending_remove r = (none, { r with pending := some none }) := by
  simp [get_pending_remove, h]

theorem set_pending_remove_of_some {r : Redis} {l : Option (List Int)}
    (h : r.pending = some l) (v : Option (List Int)) :
    set_pending_remove r v = some { r with pending := some v } := by
  simp [set_pending_remove, get_pending_remove, h]

theorem get_is_pending_remove_channels (r : Redis) (tid : Int) :
    ((get_is_pending_remove r tid).2).channels = r.channels := by
  unfold get_is_pending_remove get_pending_remove
  cases h : r.pending with
  | none => simp
  | some l => cases l <;> simp

theorem get_is_pending_remove_lookup (r : Redis) (tid : Int) (c : String) :
    ((get_is_pending_remove r tid).2).lookup c = r.lookup c := by
  unfold Redis.lookup
  rw [get_is_pending_remove_channels]

theorem get_is_pending_remove_of_some {r : Redis} {l : List Int}
    (h : r.pending = some (some l)) (tid : Int) :
    get_is_pending_remove r tid = (decide (tid ∈ l), r) := by
  simp [get_is_pending_remove, get_pending_remove, h]

theorem get_is_pending_remove_of_null {r : Redis} (h : r.pending = some none) (tid : Int) :
    get_is_pending_remove r tid = (false, r) := by
  simp [get_is_pending_remove, get_pending_remove, h]

/-! ## Document-evolution lemmas -/

theorem DocEvol.refl (o : Option ChannelState) : DocEvol o o := Or.inl rfl

theorem DocEvol.trans {a b c : Option ChannelState} (h1 : DocEvol a b) (h2 : DocEvol b c) :
    DocEvol a c := by
  rcases h1 with h1 | ⟨ha, hb⟩ | ⟨d, pl, pl1, ha, hd, hb⟩
  · rwa [h1] at h2
  · rcases h2 with h2 | ⟨hb', hc⟩ | ⟨d, pl, pl1, hb', hd, hc⟩
    · rw [h2, hb]; exact Or.inr (Or.inl ⟨ha, rfl⟩)
    · rw [hb] at hb'; cases hb'
    · rw [hb] at hb'
      obtain rfl := Option.some_injective _ hb'
      simp at hd
  · rcases h2 with h2 | ⟨hb', hc⟩ | ⟨d', pl', pl1', hb', hd', hc⟩
    · rw [h2, hb]
      exact Or.inr (Or.inr ⟨d, pl, pl1, ha, hd, rfl⟩)
    · rw [hb] at hb'; cases hb'
    · rw [hb] at hb'
      obtain rfl := Option.some_injective _ hb'
      refine Or.inr (Or.inr ⟨d, pl, pl1', ha, hd, ?_⟩)
      rw [hc]

theorem DocEvol.now_playing_eq {o o1 : Option ChannelState} (h : DocEvol o o1) :
    o1.bind ChannelState.now_playing = o.bind ChannelState.now_playing := by
  rcases h with h | ⟨ha, hb⟩ | ⟨d, pl, pl1, ha, _, hb⟩
  · rw [h]
  · rw [ha, hb]; rfl
  · rw [ha, hb]; rfl

theorem DocEvol.playlist_none {o o1 : Option ChannelState} (h : DocEvol o o1)
    (hp : o.bind ChannelState.playlist = none) : o1.bind ChannelState.playlist = none := by
  rcases h with h | ⟨ha, hb⟩ | ⟨d, pl, pl1, ha, hd, hb⟩
  · rwa [h]
  · rw [hb]; rfl
  · rw [ha] at hp
    rw [show (some d).bind ChannelState.playlist = d.playlist from rfl] at hp
    rw [hp] at hd; cases hd

theorem DocEvol.playlist_some {o o1 : Option ChannelState} {pl : List Entry}
    (h : DocEvol o o1) (hp : o.bind ChannelState.playlist = some pl) :
    ∃ pl1, o1.bind ChannelState.playlist = some pl1 := by
  rcases h with h | ⟨ha, hb⟩ | ⟨d, pl', pl1, ha, hd, hb⟩
  · exact ⟨pl, by rwa [h]⟩
  · rw [ha] at hp; cases hp
  · exact ⟨pl1, by rw [hb]; rfl⟩

theorem DocEvol.isSome {o o1 : Option ChannelState} (h : DocEvol o o1)
    (hs : o.isSome) : o1.isSome := by
  rcases h with h | ⟨ha, hb⟩ | ⟨d, pl', pl1, ha, hd, hb⟩
  · rwa [h]
  · rw [hb]; rfl
  · rw [hb]; rfl

theorem redisEvol_refl (r : Redis) : RedisEvol r r := fun _ => DocEvol.refl _

theorem redisEvol_trans {r1 r2 r3 : Redis} (h1 : RedisEvol r1 r2) (h2 : RedisEvol r2 r3) :
    RedisEvol r1 r3 := fun c => (h1 c).trans (h2 c)

theorem redisEvol_store_default {r : Redis} {c : String} (h : r.lookup c = none) :
    RedisEvol r (r.store c ⟨none, none⟩) := by
  intro c'
  by_cases hc : c = c'
  · subst hc
    rw [Redis.lookup_store_self, h]
    exact Or.inr (Or.inl ⟨rfl, rfl⟩)
  · rw [Redis.lookup_store_ne r c c' _ hc]
    exact DocEvol.refl _

theorem redisEvol_store_playlist {r : Redis} {c : String} {doc : ChannelState}
    {pl : List Entry} (h : r.lookup c = some doc) (hpl : doc.playlist = some pl)
    (pl1 : Option (List Entry)) (hpl1 : ∃ l, pl1 = some l) :
    RedisEvol r (r.store c { doc with playlist := pl1 }) := by
  intro c'
  by_cases hc : c = c'
  · subst hc
    rw [Redis.lookup_store_self, h]
    obtain ⟨l, rfl⟩ := hpl1
    exact Or.inr (Or.inr ⟨doc, pl, l, rfl, hpl, rfl⟩)
  · rw [Redis.lookup_store_ne r c c' _ hc]
    exact DocEvol.refl _

theorem redisEvol_set_pending {r : Redis} {p : Option (Option (List Int))} :
    RedisEvol r { r with pending := p } := fun _ => DocEvol.refl _

theorem RedisEvol.nowId_eq {r r1 : Redis} (h : RedisEvol r r1) (c : String) :
    nowId r1 c = nowId r c := by
  unfold nowId
  rw [(h c).now_playing_eq]

theorem RedisEvol.playlistOf_none {r r1 : Redis} (h : RedisEvol r r1) {c : String}
    (hp : playlistOf r c = none) : playlistOf r1 c = none :=
  (h c).playlist_none hp

theorem RedisEvol.playlistOf_some {r r1 : Redis} (h : RedisEvol r r1) {c : String}
    {pl : List Entry} (hp : playlistOf r c = some pl) :
    ∃ pl1, playlistOf r1 c = some pl1 :=
  (h c).playlist_some hp

theorem RedisEvol.lookup_isSome {r r1 : Redis} (h : RedisEvol r r1) {c : String}
    (hs : (r.lookup c).isSome) : (r1.lookup c).isSome :=
  (h c).isSome hs

/-! ## Channel-step lemmas for `delete_track` -/

theorem nowId_some_elim {r : Redis} {c : String} {i : Int} (h : nowId r c = some i) :
    ∃ doc np, r.lookup c = some doc ∧ doc.now_playing = some np ∧ np.id = i := by
  unfold nowId at h
  cases hl : r.lookup c with
  | none => rw [hl] at h; cases h
  | some doc =>
    rw [hl] at h
    rw [show (some doc).bind ChannelState.now_playing = doc.now_playing from rfl] at h
    cases hnp : doc.now_playing with
    | none => rw [hnp] at h; cases h
    | some np =>
      rw [hnp] at h
      exact ⟨doc, np, rfl, hnp, Option.some_injective _ h⟩

theorem nowId_some_intro {r : Redis} {c : String} {doc : ChannelState} {np : Entry}
    (hl : r.lookup c = some doc) (hnp : doc.now_playing = some np) :
    nowId r c = some np.id := by
  unfold nowId
  rw [hl]
  rw [show (some doc).bind ChannelState.now_playing = doc.now_playing from rfl, hnp]
  rfl

theorem reserve_phase_channels (t : Track) (r : Redis) :
    ((reserve_phase t r).2).channels = r.channels := by
  unfold reserve_phase
  cases hq : r.pending with
  | none => simp [get_pending_remove_of_none hq]
  | some pending_list =>
    simp only [get_pending_remove_of_some hq]
    cases pending_list with
    | none =>
      simp [get_is_pending_remove_of_null hq, set_pending_remove_of_some hq]
    | some l =>
      simp only [get_is_pending_remove_of_some hq]
      by_cases hm : t.id ∈ l
      · simp [hm]
      · simp [hm, set_pending_remove_of_some hq]

theorem reserve_phase_isSome (t : Track) (r : Redis) :
    ((reserve_phase t r).1).isSome := by
  unfold reserve_phase
  cases hq : r.pending with
  | none => simp [get_pending_remove_of_none hq]
  | some pending_list =>
    simp only [get_pending_remove_of_some hq]
    cases pending_list with
    | none =>
      simp [get_is_pending_remove_of_null hq, set_pending_remove_of_some hq]
    | some l =>
      simp only [get_is_pending_remove_of_some hq]
      by_cases hm : t.id ∈ l
      · simp [hm]
      · simp [hm, set_pending_remove_of_some hq]

theorem reserve_phase_reserve {t : Track} {r : Redis} {pl0 : Option (List Int)}
    (hq : r.pending = some pl0) (hni : t.id ∉ pl0.getD []) :
    reserve_phase t r =
      (some .reservedPending, { r with pending := some (some (pl0.getD [] ++ [t.id])) }) := by
  unfold reserve_phase
  cases pl0 with
  | none =>
    simp [get_pending_remove_of_some hq, get_is_pending_remove_of_null hq,
      set_pending_remove_of_some hq]
  | some l =>
    simp only [Option.getD] at hni
    simp [get_pending_remove_of_some hq, get_is_pending_remove_of_some hq, hni,
      set_pending_remove_of_some hq]

theorem reserve_phase_already {t : Track} {r : Redis} {l : List Int}
    (hq : r.pending = some (some l)) (hm : t.id ∈ l) :
    reserve_phase t r = (some .alreadyReserved, r) := by
  unfold reserve_phase
  simp [get_pending_remove_of_some hq, get_is_pending_remove_of_some hq, hm]

theorem reserve_phase_nodup {t : Track} {r : Redis} (h : PendingNodup r) :
    PendingNodup (reserve_phase t r).2 := by
  unfold reserve_phase
  cases hq : r.pending with
  | none =>
    simp only [get_pending_remove_of_none hq]
    intro l hl
    simp at hl
  | some pending_list =>
    simp only [get_pending_remove_of_some hq]
    cases pending_list with
    | none =>
      simp only [get_is_pending_remove_of_null hq, set_pending_remove_of_some hq]
      intro l hl
      simp at hl
      rw [← hl]
      exact List.nodup_singleton _
    | some l =>
      simp only [get_is_pending_remove_of_some hq]
      by_cases hm : t.id ∈ l
      · simpa [hm] using h
      · have hd : decide (t.id ∈ l) = false := decide_eq_false hm
        simp only [hd, Bool.false_eq_true, if_false, set_pending_remove_of_some hq]
        intro l' hl'
        simp at hl'
        rw [← hl']
        exact List.Nodup.append (h l hq) (List.nodup_singleton _)
          (fun a ha hb => by
            simp at hb
            subst hb
            exact hm ha)

theorem playlist_purge_phase_pending (t : Track) (c : String) (doc : ChannelState)
    (r1 : Redis) : (playlist_purge_phase t c doc r1).pending = r1.pending := by
  unfold playlist_purge_phase
  cases hpl : doc.playlist with
  | none => rfl
  | some pl =>
    by_cases he : pl.isEmpty
    · simp [he]
    · cases hl : r1.lookup c with
      | none =>
        have hs : set_redis_data r1 c (some (purge_playlist_loop t.id 0 pl)) = none := by
          simp [set_redis_data, get_redis_data, hl]
        simp [he, hs]
      | some d =>
        simp [he, set_redis_data_of_lookup hl, Redis.store_pending]

theorem playlist_purge_phase_evol {t : Track} {c : String} {doc : ChannelState}
    {r1 : Redis} (h : r1.lookup c = some doc) :
    RedisEvol r1 (playlist_purge_phase t c doc r1) := by
  unfold playlist_purge_phase
  cases hpl : doc.playlist with
  | none => exact redisEvol_refl r1
  | some pl =>
    by_cases he : pl.isEmpty
    · simp only [he, if_true]
      exact redisEvol_refl r1
    · simp only [he, Bool.false_eq_true, if_false,
        set_redis_data_of_lookup h (some (purge_playlist_loop t.id 0 pl))]
      exact redisEvol_store_playlist h hpl _ ⟨_, rfl⟩

theorem redisEvol_of_channels_eq {r r1 : Redis} (h : r1.channels = r.channels) :
    RedisEvol r r1 := by
  intro c
  unfold Redis.lookup
  rw [h]
  exact DocEvol.refl _

theorem PendingNodup.of_pending_eq {r1 r2 : Redis} (he : r1.pending = r2.pending)
    (h : PendingNodup r2) : PendingNodup r1 :=
  fun l hl => h l (by rw [← he]; exact hl)

theorem step_evol (t : Track) (force : Bool) (c : String) (r : Redis) :
    RedisEvol r (delete_track_channel_step t force c r).2 := by
  cases hl : r.lookup c with
  | none =>
    simp only [delete_track_channel_step, get_redis_data_of_none hl]
    exact redisEvol_store_default hl
  | some doc =>
    cases hnp : doc.now_playing with
    | none =>
      simp only [delete_track_channel_step, get_redis_data_of_lookup hl, hnp]
      exact playlist_purge_phase_evol hl
    | some np =>
      by_cases hid : np.id = t.id
      · cases force with
        | true =>
          simp only [delete_track_channel_step, get_redis_data_of_lookup hl, hnp,
            if_pos hid, if_true]
          exact playlist_purge_phase_evol hl
        | false =>
          simp only [delete_track_channel_step, get_redis_data_of_lookup hl, hnp,
            if_pos hid, Bool.false_eq_true, if_false]
          cases hres : reserve_phase t r with
          | mk o r1 =>
            have hch : r1.channels = r.channels := by
              have := reserve_phase_channels t r
              rw [hres] at this
              exact this
            have hev : RedisEvol r r1 := redisEvol_of_channels_eq hch
            cases o with
            | some out => exact hev
            | none =>
              refine redisEvol_trans hev (playlist_purge_phase_evol ?_)
              show r1.lookup c = some doc
              unfold Redis.lookup
              rw [hch]
              exact hl
      · simp only [delete_track_channel_step, get_redis_data_of_lookup hl, hnp,
          if_neg hid]
        exact playlist_purge_phase_evol hl

theorem step_nowId (t : Track) (force : Bool) (c : String) (r : Redis) (c' : String) :
    nowId (delete_track_channel_step t force c r).2 c' = nowId r c' :=
  (step_evol t force c r).nowId_eq c'

theorem step_force_continue (t : Track) (c : String) (r : Redis) :
    (delete_track_channel_step t true c r).1 = none := by
  cases hl : r.lookup c with
  | none => simp [delete_track_channel_step, get_redis_data_of_none hl]
  | some doc =>
    cases hnp : doc.now_playing with
    | none => simp only [delete_track_channel_step, get_redis_data_of_lookup hl, hnp]
    | some np =>
      by_cases hid : np.id = t.id
      · simp only [delete_track_channel_step, get_redis_data_of_lookup hl, hnp,
          if_pos hid, if_true]
      · simp only [delete_track_channel_step, get_redis_data_of_lookup hl, hnp,
          if_neg hid]

theorem step_continue_of_not_now (t : Track) (force : Bool) (c : String) (r : Redis)
    (h : nowId r c ≠ some t.id) :
    (delete_track_channel_step t force c r).1 = none := by
  cases hl : r.lookup c with
  | none => simp [delete_track_channel_step, get_redis_data_of_none hl]
  | some doc =>
    cases hnp : doc.now_playing with
    | none => simp only [delete_track_channel_step, get_redis_data_of_lookup hl, hnp]
    | some np =>
      have hid : ¬np.id = t.id := by
        intro hid
        exact h (by rw [← hid]; exact nowId_some_intro hl hnp)
      simp only [delete_track_channel_step, get_redis_data_of_lookup hl, hnp,
        if_neg hid]

theorem step_pending_of_continue (t : Track) (force : Bool) (c : String) (r : Redis)
    (h : (delete_track_channel_step t force c r).1 = none) :
    (delete_track_channel_step t force c r).2.pending = r.pending := by
  cases hl : r.lookup c with
  | none =>
    simp only [delete_track_channel_step, get_redis_data_of_none hl]
    rfl
  | some doc =>
    cases hnp : doc.now_playing with
    | none =>
      simp only [delete_track_channel_step, get_redis_data_of_lookup hl, hnp]
      exact playlist_purge_phase_pending t c doc r
    | some np =>
      by_cases hid : np.id = t.id
      · cases force with
        | true =>
          simp only [delete_track_channel_step, get_redis_data_of_lookup hl, hnp,
            if_pos hid, if_true]
          exact playlist_purge_phase_pending t c doc r
        | false =>
          simp only [delete_track_channel_step, get_redis_data_of_lookup hl, hnp,
            if_pos hid, Bool.false_eq_true, if_false] at h ⊢
          cases hres : reserve_phase t r with
          | mk o r1 =>
            rw [hres] at h
            cases o with
            | some out => simp at h
            | none =>
              have := reserve_phase_isSome t r
              rw [hres] at this
              cases this
      · simp only [delete_track_channel_step, get_redis_data_of_lookup hl, hnp,
          if_neg hid]
        exact playlist_purge_phase_pending t c doc r

theorem step_isSome_of_now (t : Track) (c : String) (r : Redis)
    (h : nowId r c = some t.id) :
    ((delete_track_channel_step t false c r).1).isSome := by
  obtain ⟨doc, np, hl, hnp, hid⟩ := nowId_some_elim h
  simp only [delete_track_channel_step, get_redis_data_of_lookup hl, hnp, if_pos hid,
    Bool.false_eq_true, if_false]
  cases hres : reserve_phase t r with
  | mk o r1 =>
    cases o with
    | some out => rfl
    | none =>
      have := reserve_phase_isSome t r
      rw [hres] at this
      cases this

theorem step_reserve {t : Track} {c : String} {r : Redis} {doc : ChannelState}
    {np : Entry} {pl0 : Option (List Int)}
    (hl : r.lookup c = some doc) (hnp : doc.now_playing = some np) (hid : np.id = t.id)
    (hq : r.pending = some pl0) (hni : t.id ∉ pl0.getD []) :
    delete_track_channel_step t false c r =
      (some .reservedPending, { r with pending := some (some (pl0.getD [] ++ [t.id])) }) := by
  simp only [delete_track_channel_step, get_redis_data_of_lookup hl, hnp, if_pos hid,
    Bool.false_eq_true, if_false, reserve_phase_reserve hq hni]

theorem step_already {t : Track} {c : String} {r : Redis} {doc : ChannelState}
    {np : Entry} {l : List Int}
    (hl : r.lookup c = some doc) (hnp : doc.now_playing = some np) (hid : np.id = t.id)
    (hq : r.pending = some (some l)) (hm : t.id ∈ l) :
    delete_track_channel_step t false c r = (some .alreadyReserved, r) := by
  simp only [delete_track_channel_step, get_redis_data_of_lookup hl, hnp, if_pos hid,
    Bool.false_eq_true, if_false, reserve_phase_already hq hm]

theorem step_nodup (t : Track) (force : Bool) (c : String) (r : Redis)
    (h : PendingNodup r) :
    PendingNodup (delete_track_channel_step t force c r).2 := by
  cases hl : r.lookup c with
  | none =>
    simp only [delete_track_channel_step, get_redis_data_of_none hl]
    exact h.of_pending_eq rfl |>.of_pending_eq rfl
  | some doc =>
    cases hnp : doc.now_playing with
    | none =>
      simp only [delete_track_channel_step, get_redis_data_of_lookup hl, hnp]
      exact h.of_pending_eq (playlist_purge_phase_pending t c doc r)
    | some np =>
      by_cases hid : np.id = t.id
      · cases force with
        | true =>
          simp only [delete_track_channel_step, get_redis_data_of_lookup hl, hnp,
            if_pos hid, if_true]
          exact h.of_pending_eq (playlist_purge_phase_pending t c doc r)
        | false =>
          simp only [delete_track_channel_step, get_redis_data_of_lookup hl, hnp,
            if_pos hid, Bool.false_eq_true, if_false]
          cases hres : reserve_phase t r with
          | mk o r1 =>
            have hnd : PendingNodup r1 := by
              have := reserve_phase_nodup (t := t) h
              rw [hres] at this
              exact this
            cases o with
            | some out => exact hnd
            | none => exact hnd.of_pending_eq (playlist_purge_phase_pending t c doc r1)
      · simp only [delete_track_channel_step, get_redis_data_of_lookup hl, hnp,
          if_neg hid]
        exact h.of_pending_eq (playlist_purge_phase_pending t c doc r)

/-! ## The channel loop and `delete_track` -/

theorem reserve_phase_not_deleted (t : Track) (r : Redis) :
    (reserve_phase t r).1 ≠ some .deleted := by
  unfold reserve_phase
  cases hq : r.pending with
  | none => simp [get_pending_remove_of_none hq]
  | some pending_list =>
    simp only [get_pending_remove_of_some hq]
    cases pending_list with
    | none =>
      simp [get_is_pending_remove_of_null hq, set_pending_remove_of_some hq]
    | some l =>
      simp only [get_is_pending_remove_of_some hq]
      by_cases hm : t.id ∈ l
      · simp [hm]
      · simp [hm, set_pending_remove_of_some hq]

theorem step_not_deleted (t : Track) (force : Bool) (c : String) (r : Redis) :
    (delete_track_channel_step t force c r).1 ≠ some .deleted := by
  cases hl : r.lookup c with
  | none => simp [delete_track_channel_step, get_redis_data_of_none hl]
  | some doc =>
    cases hnp : doc.now_playing with
    | none =>
      simp only [delete_track_channel_step, get_redis_data_of_lookup hl, hnp]
      simp
    | some np =>
      by_cases hid : np.id = t.id
      · cases force with
        | true =>
          simp only [delete_track_channel_step, get_redis_data_of_lookup hl, hnp,
            if_pos hid, if_true]
          simp
        | false =>
          simp only [delete_track_channel_step, get_redis_data_of_lookup hl, hnp,
            if_pos hid, Bool.false_eq_true, if_false]
          cases hres : reserve_phase t r with
          | mk o r1 =>
            have hnd := reserve_phase_not_deleted t r
            rw [hres] at hnd
            cases o with
            | some out => simpa using hnd
            | none => simp
      · simp only [delete_track_channel_step, get_redis_data_of_lookup hl, hnp,
          if_neg hid]
        simp

theorem channels_evol (t : Track) (force : Bool) (cs : List String) :
    ∀ r : Redis, RedisEvol r (delete_channels t force cs r).2 := by
  induction cs with
  | nil => intro r; exact redisEvol_refl r
  | cons hd tl ih =>
    intro r
    cases hs : delete_track_channel_step t force hd r with
    | mk o r1 =>
      have hev : RedisEvol r r1 := by
        have := step_evol t force hd r
        rw [hs] at this
        exact this
      cases o with
      | some out => simpa [delete_channels, hs] using hev
      | none =>
        simp only [delete_channels, hs]
        exact redisEvol_trans hev (ih r1)

theorem channels_nowId (t : Track) (force : Bool) (cs : List String) (r : Redis)
    (c' : String) : nowId (delete_channels t force cs r).2 c' = nowId r c' :=
  (channels_evol t force cs r).nowId_eq c'

theorem channels_force_continue (t : Track) (cs : List String) (r : Redis) :
    (delete_channels t true cs r).1 = none := by
  induction cs generalizing r with
  | nil => rfl
  | cons hd tl ih =>
    cases hs : delete_track_channel_step t true hd r with
    | mk o r1 =>
      have ho : o = none := by
        have := step_force_continue t hd r
        rw [hs] at this
        exact this
      subst ho
      simp only [delete_channels, hs]
      exact ih r1

theorem channels_pending_force (t : Track) (cs : List String) (r : Redis) :
    (delete_channels t true cs r).2.pending = r.pending := by
  induction cs generalizing r with
  | nil => rfl
  | cons hd tl ih =>
    cases hs : delete_track_channel_step t true hd r with
    | mk o r1 =>
      have ho : o = none := by
        have := step_force_continue t hd r
        rw [hs] at this
        exact this
      subst ho
      have hp : r1.pending = r.pending := by
        have := step_pending_of_continue t true hd r (by rw [hs])
        rw [hs] at this
        exact this
      simp only [delete_channels, hs]
      rw [ih r1, hp]

theorem channels_nodup (t : Track) (force : Bool) (cs : List String) (r : Redis)
    (h : PendingNodup r) : PendingNodup (delete_channels t force cs r).2 := by
  induction cs generalizing r with
  | nil => exact h
  | cons hd tl ih =>
    cases hs : delete_track_channel_step t force hd r with
    | mk o r1 =>
      have h1 : PendingNodup r1 := by
        have := step_nodup t force hd r h
        rw [hs] at this
        exact this
      cases o with
      | some out => simpa [delete_channels, hs] using h1
      | none =>
        simp only [delete_channels, hs]
        exact ih r1 h1

theorem channels_not_deleted (t : Track) (force : Bool) (cs : List String) (r : Redis) :
    (delete_channels t force cs r).1 ≠ some .deleted := by
  induction cs generalizing r with
  | nil => simp [delete_channels]
  | cons hd tl ih =>
    cases hs : delete_track_channel_step t force hd r with
    | mk o r1 =>
      cases o with
      | some out =>
        have := step_not_deleted t force hd r
        rw [hs] at this
        simpa [delete_channels, hs] using this
      | none =>
        simp only [delete_channels, hs]
        exact ih r1

theorem channels_none_not_now (t : Track) (cs : List String) (r : Redis)
    (h : (delete_channels t false cs r).1 = none) :
    ∀ c ∈ cs, nowId r c ≠ some t.id := by
  induction cs generalizing r with
  | nil => intro c hc; cases hc
  | cons hd tl ih =>
    intro c hc
    cases hs : delete_track_channel_step t false hd r with
    | mk o r1 =>
      cases o with
      | some out =>
        rw [show delete_channels t false (hd :: tl) r =
          (some out, r1) from by simp [delete_channels, hs]] at h
        cases h
      | none =>
        rw [show delete_channels t false (hd :: tl) r =
          delete_channels t false tl r1 from by simp [delete_channels, hs]] at h
        have hstep_now : ∀ c', nowId r1 c' = nowId r c' := by
          intro c'
          have := step_nowId t false hd r c'
          rw [hs] at this
          exact this
        rcases List.mem_cons.mp hc with rfl | hctl
        · intro hnow
          have := step_isSome_of_now t c r hnow
          rw [hs] at this
          cases this
        · have := ih r1 h c hctl
          rw [hstep_now c] at this
          exact this

theorem channels_reserve (t : Track) (cs : List String) (r : Redis)
    (pl0 : Option (List Int)) (hq : r.pending = some pl0) (hni : t.id ∉ pl0.getD [])
    (hex : ∃ c ∈ cs, nowId r c = some t.id) :
    (delete_channels t false cs r).1 = some .reservedPending ∧
    (delete_channels t false cs r).2.pending = some (some (pl0.getD [] ++ [t.id])) := by
  induction cs generalizing r with
  | nil => rcases hex with ⟨c, hc, _⟩; cases hc
  | cons hd tl ih =>
    by_cases hhd : nowId r hd = some t.id
    · obtain ⟨doc, np, hl, hnp, hid⟩ := nowId_some_elim hhd
      have hstep := step_reserve hl hnp hid hq hni
      refine ⟨?_, ?_⟩ <;> simp [delete_channels, hstep]
    · have hcont := step_continue_of_not_now t false hd r hhd
      cases hs : delete_track_channel_step t false hd r with
      | mk o r1 =>
        rw [hs] at hcont
        subst hcont
        have hp : r1.pending = r.pending := by
          have := step_pending_of_continue t false hd r (by rw [hs])
          rw [hs] at this
          exact this
        have hstep_now : ∀ c', nowId r1 c' = nowId r c' := by
          intro c'
          have := step_nowId t false hd r c'
          rw [hs] at this
          exact this
        have hex1 : ∃ c ∈ tl, nowId r1 c = some t.id := by
          rcases hex with ⟨c, hc, hcnow⟩
          rcases List.mem_cons.mp hc with rfl | hctl
          · exact absurd hcnow hhd
          · exact ⟨c, hctl, by rw [hstep_now c]; exact hcnow⟩
        have := ih r1 (by rw [hp]; exact hq) hex1
        simpa [delete_channels, hs] using this

theorem channels_already (t : Track) (cs : List String) (r : Redis)
    (l : List Int) (hq : r.pending = some (some l)) (hm : t.id ∈ l)
    (hex : ∃ c ∈ cs, nowId r c = some t.id) :
    (delete_channels t false cs r).1 = some .alreadyReserved ∧
    (delete_channels t false cs r).2.pending = some (some l) := by
  induction cs generalizing r with
  | nil => rcases hex with ⟨c, hc, _⟩; cases hc
  | cons hd tl ih =>
    by_cases hhd : nowId r hd = some t.id
    · obtain ⟨doc, np, hl, hnp, hid⟩ := nowId_some_elim hhd
      have hstep := step_already hl hnp hid hq hm
      refine ⟨?_, ?_⟩ <;> simp [delete_channels, hstep, hq]
    · have hcont := step_continue_of_not_now t false hd r hhd
      cases hs : delete_track_channel_step t false hd r with
      | mk o r1 =>
        rw [hs] at hcont
        subst hcont
        have hp : r1.pending = r.pending := by
          have := step_pending_of_continue t false hd r (by rw [hs])
          rw [hs] at this
          exact this
        have hstep_now : ∀ c', nowId r1 c' = nowId r c' := by
          intro c'
          have := step_nowId t false hd r c'
          rw [hs] at this
          exact this
        have hex1 : ∃ c ∈ tl, nowId r1 c = some t.id := by
          rcases hex with ⟨c, hc, hcnow⟩
          rcases List.mem_cons.mp hc with rfl | hctl
          · exact absurd hcnow hhd
          · exact ⟨c, hctl, by rw [hstep_now c]; exact hcnow⟩
        have := ih r1 (by rw [hp]; exact hq) hex1
        simpa [delete_channels, hs] using this

theorem delete_track_evol (db : List Track) (r : Redis) (t : Track) (force : Bool) :
    RedisEvol r (delete_track db r t force).2.2 := by
  unfold delete_track
  cases hdc : delete_channels t force t.channel r with
  | mk o r1 =>
    have hev : RedisEvol r r1 := by
      have := channels_evol t force t.channel r
      rw [hdc] at this
      exact this
    cases o with
    | some out => exact hev
    | none => exact hev

theorem delete_track_nowId (db : List Track) (r : Redis) (t : Track) (force : Bool)
    (c' : String) : nowId (delete_track db r t force).2.2 c' = nowId r c' :=
  (delete_track_evol db r t force).nowId_eq c'

theorem delete_track_nodup (db : List Track) (r : Redis) (t : Track) (force : Bool)
    (h : PendingNodup r) : PendingNodup (delete_track db r t force).2.2 := by
  unfold delete_track
  cases hdc : delete_channels t force t.channel r with
  | mk o r1 =>
    have h1 : PendingNodup r1 := by
      have := channels_nodup t force t.channel r h
      rw [hdc] at this
      exact this
    cases o with
    | some out => exact h1
    | none => exact h1

theorem delete_track_force_eq (db : List Track) (r : Redis) (t : Track) :
    delete_track db r t true =
      (.deleted, db.filter (fun x => decide (x.id ≠ t.id)),
       (delete_channels t true t.channel r).2) := by
  unfold delete_track
  cases hdc : delete_channels t true t.channel r with
  | mk o r1 =>
    have ho : o = none := by
      have := channels_force_continue t t.channel r
      rw [hdc] at this
      exact this
    subst ho
    rfl

theorem delete_track_force_pending (db : List Track) (r : Redis) (t : Track) :
    (delete_track db r t true).2.2.pending = r.pending := by
  rw [delete_track_force_eq]
  exact channels_pending_force t t.channel r

theorem delete_track_db_sub (db : List Track) (r : Redis) (t : Track) (force : Bool) :
    ∀ x ∈ (delete_track db r t force).2.1, x ∈ db := by
  unfold delete_track
  cases hdc : delete_channels t force t.channel r with
  | mk o r1 =>
    cases o with
    | some out => intro x hx; exact hx
    | none => intro x hx; exact List.mem_of_mem_filter hx

theorem delete_track_force_id (db : List Track) (r : Redis) (t : Track) :
    ∀ x ∈ (delete_track db r t true).2.1, x.id ≠ t.id := by
  rw [delete_track_force_eq]
  intro x hx
  simpa using List.of_mem_filter hx

theorem delete_track_deleted_guard (db : List Track) (r : Redis) (t : Track)
    (h : (delete_track db r t false).1 = .deleted) :
    ∀ c ∈ t.channel, nowId r c ≠ some t.id := by
  unfold delete_track at h
  cases hdc : delete_channels t false t.channel r with
  | mk o r1 =>
    cases o with
    | some out =>
      rw [hdc] at h
      simp only at h
      subst h
      have := channels_not_deleted t false t.channel r
      rw [hdc] at this
      simp at this
    | none =>
      have := channels_none_not_now t t.channel r (by rw [hdc])
      exact this

/-! ## The reconciliation pass -/

theorem loop_pending (ids : List Int) (db : List Track) (r : Redis) :
    (remove_pending_loop ids db r).2.pending = r.pending := by
  induction ids generalizing db r with
  | nil => rfl
  | cons tid rest ih =>
    simp only [remove_pending_loop]
    cases hg : dbGet db tid with
    | none => exact ih db r
    | some track =>
      rw [ih]
      exact delete_track_force_pending db r track

theorem loop_evol (ids : List Int) (db : List Track) (r : Redis) :
    RedisEvol r (remove_pending_loop ids db r).2 := by
  induction ids generalizing db r with
  | nil => exact redisEvol_refl r
  | cons tid rest ih =>
    simp only [remove_pending_loop]
    cases hg : dbGet db tid with
    | none => exact ih db r
    | some track =>
      exact redisEvol_trans (delete_track_evol db r track true) (ih _ _)

theorem loop_nodup (ids : List Int) (db : List Track) (r : Redis)
    (h : PendingNodup r) : PendingNodup (remove_pending_loop ids db r).2 := by
  induction ids generalizing db r with
  | nil => exact h
  | cons tid rest ih =>
    simp only [remove_pending_loop]
    cases hg : dbGet db tid with
    | none => exact ih db r h
    | some track =>
      exact ih _ _ (delete_track_nodup db r track true h)

theorem loop_sub (ids : List Int) (db : List Track) (r : Redis) :
    ∀ x ∈ (remove_pending_loop ids db r).1, x ∈ db := by
  induction ids generalizing db r with
  | nil => intro x hx; exact hx
  | cons tid rest ih =>
    simp only [remove_pending_loop]
    cases hg : dbGet db tid with
    | none => exact ih db r
    | some track =>
      intro x hx
      exact delete_track_db_sub db r track true x (ih _ _ x hx)

theorem loop_preserves_no_id (ids : List Int) (db : List Track) (r : Redis) (tid : Int)
    (h : ∀ x ∈ db, x.id ≠ tid) : ∀ x ∈ (remove_pending_loop ids db r).1, x.id ≠ tid :=
  fun x hx => h x (loop_sub ids db r x hx)

theorem loop_removes (ids : List Int) (db : List Track) (r : Redis) (tid : Int)
    (h : tid ∈ ids) : ∀ x ∈ (remove_pending_loop ids db r).1, x.id ≠ tid := by
  induction ids generalizing db r with
  | nil => cases h
  | cons hd rest ih =>
    simp only [remove_pending_loop]
    cases hg : dbGet db hd with
    | none =>
      rcases List.mem_cons.mp h with rfl | hrest
      · have hnone : ∀ x ∈ db, x.id ≠ tid := by
          intro x hx hxid
          have := List.find?_eq_none.mp hg x hx
          simp [hxid] at this
        exact loop_preserves_no_id rest db r tid hnone
      · exact ih db r hrest
    | some track =>
      rcases List.mem_cons.mp h with rfl | hrest
      · have htid : track.id = tid := by
          have := List.find?_some hg
          simpa using this
        refine loop_preserves_no_id rest _ _ tid ?_
        intro x hx
        rw [← htid]
        exact delete_track_force_id db r track x hx
      · exact ih _ _ hrest

theorem remove_pending_track_nodup (db : List Track) (r : Redis) :
    PendingNodup (remove_pending_track db r).2 := by
  unfold remove_pending_track
  cases hq : r.pending with
  | none =>
    simp only [get_pending_remove_of_none hq]
    intro l hl
    simp at hl
  | some pending_list =>
    simp only [get_pending_remove_of_some hq]
    cases pending_list with
    | none =>
      simp only [set_pending_remove_of_some hq]
      intro l hl
      simp at hl
    | some l =>
      have hsp :
          set_pending_remove (remove_pending_loop l.reverse db r).2 (some []) =
            some { (remove_pending_loop l.reverse db r).2 with pending := some (some []) } := by
        apply set_pending_remove_of_some
        rw [loop_pending, hq]
      simp only [hsp]
      intro l' hl'
      simp at hl'
      rw [hl']
      exact List.nodup_nil

theorem remove_pending_track_eq_of_list (db : List Track) (r : Redis) (l : List Int)
    (hq : r.pending = some (some l)) :
    remove_pending_track db r =
      ((remove_pending_loop l.reverse db r).1,
       { (remove_pending_loop l.reverse db r).2 with pending := some (some []) }) := by
  unfold remove_pending_track
  have hsp :
      set_pending_remove (remove_pending_loop l.reverse db r).2 (some []) =
        some { (remove_pending_loop l.reverse db r).2 with pending := some (some []) } := by
    apply set_pending_remove_of_some
    rw [loop_pending, hq]
  simp only [get_pending_remove_of_some hq, hsp]

theorem remove_pending_track_removes (db : List Track) (r : Redis) (l : List Int)
    (tid : Int) (hq : r.pending = some (some l)) (hm : tid ∈ l) :
    ∀ x ∈ (remove_pending_track db r).1, x.id ≠ tid := by
  rw [remove_pending_track_eq_of_list db r l hq]
  exact loop_removes l.reverse db r tid (List.mem_reverse.mpr hm)

theorem remove_pending_track_final (db : List Track) (r : Redis) (l : List Int)
    (hq : r.pending = some (some l)) :
    (remove_pending_track db r).2.pending = some (some []) := by
  rw [remove_pending_track_eq_of_list db r l hq]

theorem remove_pending_track_evol (db : List Track) (r : Redis) :
    RedisEvol r (remove_pending_track db r).2 := by
  unfold remove_pending_track
  cases hq : r.pending with
  | none =>
    simp only [get_pending_remove_of_none hq]
    exact redisEvol_set_pending
  | some pending_list =>
    simp only [get_pending_remove_of_some hq]
    cases pending_list with
    | none =>
      simp only [set_pending_remove_of_some hq]
      exact redisEvol_set_pending
    | some l =>
      have hsp :
          set_pending_remove (remove_pending_loop l.reverse db r).2 (some []) =
            some { (remove_pending_loop l.reverse db r).2 with pending := some (some []) } := by
        apply set_pending_remove_of_some
        rw [loop_pending, hq]
      simp only [hsp]
      exact redisEvol_trans (loop_evol l.reverse db r) redisEvol_set_pending

/-! ## Claim theorems -/

/-- C1: the claim says `get_random_track` never returns a track whose id
equals the channel's current `now_playing.id`.  The code refutes it: with
now playing id 1 and the playlist ending in id 2, the Python `and` chaining
of Q objects (util.py:150/154/157) reduces the whole filter to `~Q(id=2)`,
so the queryset is `[track1, track3]` — it contains the now-playing track 1,
and with `samples = 3 > 2` the `random.sample` draw returns the entire
two-element pool, so track 1 is always among the returned tracks. -/
theorem c1_get_random_track_returns_now_playing :
    (get_random_track [trA1, trB2, trC3] rNowA_lastB "trance" 3 T0).1
        = some ([trA1, trC3], 2) ∧
    nowId rNowA_lastB "trance" = some 1 ∧ trA1.id = 1 :=
  ⟨rfl, rfl, rfl⟩

/-- C2: the claim says the primary candidate set equals the channel-tagged
tracks passing the 3-hour/10-minute recency condition minus the excluded
ids.  The code refutes it: with now playing id 1, the Python `and` makes the
query just `~Q(id=1)`, so the non-fallback pool is `[track9]`, a track that
is not tagged "trance" and was played 100 s ago — while the spec's candidate
set at the same state is empty. -/
theorem c2_candidate_query_ignores_channel_and_time :
    (get_random_track [trA1, trH9] rNowA_emptyPl "trance" 21 T0).1
        = some ([trH9], 1) ∧
    spec_primary_candidates [trA1, trH9] "trance" [1] T0 = [] ∧
    "trance" ∉ trH9.channel :=
  ⟨rfl, rfl, by decide⟩

/-- C7: the claim says that when the filtered candidate set is empty the
fallback draws from all tracks tagged with the channel minus the excluded
ids, returning `min(sampleSize, |candidates|)` tracks.  The code refutes it:
at this state the spec's filtered set is empty and its fallback set is
`[track2]` (so the spec returns exactly 1 track), but the code's query —
`~Q(id=1)` after the `and` collapse — is already non-empty, the fallback
branch is not even reached, and 2 tracks are drawn, including the
house-channel track 8. -/
theorem c7_fallback_draw_diverges :
    (get_random_track [trA1, trB2, trH8] rNowA_emptyPl "trance" 2 T0).1
        = some ([trB2, trH8], 2) ∧
    spec_primary_candidates [trA1, trB2, trH8] "trance" [1] T0 = [] ∧
    spec_fallback_candidates [trA1, trB2, trH8] "trance" [1] = [trB2] :=
  ⟨rfl, rfl, rfl⟩

/-- C3 counterexample: the claim says the first `get_redis_data` call on an
absent key returns `{now_playing: null, playlist: []}`.  On a fresh store
the call instead returns `None` (the stored default is then parsed from the
stale `raw_json = None`), and the document it persists has `playlist: null`,
not `[]`. -/
theorem c3_first_read_returns_none :
    (get_redis_data rFresh "trance").1 = none ∧
    (get_redis_data rFresh "trance").2.lookup "trance" = some ⟨none, none⟩ :=
  ⟨rfl, rfl⟩

/-- C3 (amended): for a channel with no stored state, `get_redis_data`
persists the default `{now_playing: null, playlist: null}` exactly once and
returns `None` on that first call; a second call returns the persisted
document and performs no further write. -/
theorem c3_lazy_default_amended (r : Redis) (c : String) (h : r.lookup c = none) :
    get_redis_data r c = (none, r.store c ⟨none, none⟩) ∧
    (r.store c ⟨none, none⟩).lookup c = some ⟨none, none⟩ ∧
    get_redis_data (r.store c ⟨none, none⟩) c =
      (some ⟨none, none⟩, r.store c ⟨none, none⟩) :=
  ⟨get_redis_data_of_none h, Redis.lookup_store_self r c _,
   get_redis_data_of_lookup (Redis.lookup_store_self r c _)⟩

/-- C3 (amended) witness at the fresh store and channel "trance". -/
theorem c3_lazy_default_amended_witness :
    get_redis_data rFresh "trance" = (none, rFresh.store "trance" ⟨none, none⟩) ∧
    (rFresh.store "trance" ⟨none, none⟩).lookup "trance" = some ⟨none, none⟩ ∧
    get_redis_data (rFresh.store "trance" ⟨none, none⟩) "trance" =
      (some ⟨none, none⟩, rFresh.store "trance" ⟨none, none⟩) :=
  c3_lazy_default_amended rFresh "trance" rfl

/-- C5 counterexample: the claim says no delete execution (force included)
removes a catalog row while the track is some channel's `now_playing`.  In
force mode (the reconciliation pass) the now-playing guard is skipped:
draining a pending list containing track 1 while track 1 is still now
playing on "trance" deletes its row, and the channel still reports
`now_playing.id = 1` afterwards. -/
theorem c5_force_delete_while_now_playing :
    (remove_pending_track [trA1] rNowA_pending1).1 = [] ∧
    nowId (remove_pending_track [trA1] rNowA_pending1).2 "trance" = some 1 ∧
    trA1.id = 1 :=
  ⟨rfl, rfl, rfl⟩

/-- C5 (amended): in the non-force path, `track.delete()` is reached only
if the now-playing check failed on every channel of the track: whenever a
non-force `delete_track` ends in the `deleted` outcome, no channel the track
belongs to had it as the current `now_playing` (force mode, used by the
reconciliation pass, deletes regardless). -/
theorem c5_nonforce_delete_guard (db : List Track) (r : Redis) (t : Track)
    (h : (delete_track db r t false).1 = .deleted) :
    ∀ c ∈ t.channel, nowId r c ≠ some t.id :=
  delete_track_deleted_guard db r t h

/-- C5 (amended) witness: deleting track 2 while track 1 is now playing
succeeds, and indeed "trance" was not playing track 2. -/
theorem c5_nonforce_delete_guard_witness :
    nowId rNowA_emptyPl "trance" ≠ some trB2.id :=
  c5_nonforce_delete_guard [trA1, trB2] rNowA_emptyPl trB2 rfl "trance" (by decide)

/-- C9: a track id appears at most once in the pending-removal list.  The
non-force `delete_track` appends an id only after `get_is_pending_remove`
reports it absent, the reconciliation pass only drains, and no other
operation inserts — so every sequence of requestDelete/reconcilePending
operations preserves the no-duplicates invariant of the stored list. -/
theorem c9_pending_list_nodup_preserved (ops : List Op) (db : List Track) (r : Redis)
    (h : PendingNodup r) : PendingNodup (runOps (db, r) ops).2 := by
  induction ops generalizing db r with
  | nil => exact h
  | cons op rest ih =>
    cases op with
    | requestDelete t =>
      simp only [runOps, applyOp]
      exact ih _ _ (delete_track_nodup db r t false h)
    | reconcile =>
      simp only [runOps, applyOp]
      exact ih _ _ (remove_pending_track_nodup db r)

/-- C9 witness: two delete requests for the same playing track followed by a
reconciliation, starting from a null pending list, keep the list
duplicate-free. -/
theorem c9_pending_list_nodup_preserved_witness :
    PendingNodup (runOps ([trA1], rNowA_nullPending)
      [.requestDelete trA1, .requestDelete trA1, .reconcile]).2 :=
  c9_pending_list_nodup_preserved [.requestDelete trA1, .requestDelete trA1, .reconcile]
    [trA1] rNowA_nullPending (by intro l hl; simp [rNowA_nullPending] at hl)

/-- C8 counterexample: the claim says `move` fails with an index error
whenever either index is out of bounds.  Python's `list.insert` never
raises: moving from index 0 to index 5 on a 2-element playlist succeeds
(the target clamps to the end) and persists `[e2, e1]` instead of failing. -/
theorem c8_move_to_index_out_of_range_succeeds :
    QueueMoveAPI_get ["trance"] rIdlePl2 "trance" 0 5 =
      (.ok 201, ⟨[("trance", ⟨none, some [eB2, eA1]⟩)], some (some [])⟩,
       [.persist "trance" [eB2, eA1],
        .notify ⟨"server", "trance", "setlist", .playlist [eB2, eA1]⟩]) :=
  rfl

/-- C8 (amended): `move` removes the element at `fromIndex` (Python
semantics: negative indices count from the end) and inserts it at `toIndex`
into the already-shortened sequence; it fails with an index error exactly
when `fromIndex` is out of bounds at removal time — leaving the stored
playlist unchanged — while an out-of-bounds `toIndex` never fails: the
insertion position clamps to the ends of the shortened list. -/
theorem c8_move_semantics (svc : List String) (r : Redis) (c : String)
    (doc : ChannelState) (pl : List Entry) (fi ti : Int)
    (hc : c ∈ svc) (hdoc : r.lookup c = some doc) (hpl : doc.playlist = some pl) :
    (pyPop pl fi = none →
      QueueMoveAPI_get svc r c fi ti = (.pyError, r, [])) ∧
    (∀ x pl1, pyPop pl fi = some (x, pl1) →
      QueueMoveAPI_get svc r c fi ti =
        (.ok 201, r.store c { doc with playlist := some (pyInsert pl1 ti x) },
         [.persist c (pyInsert pl1 ti x),
          .notify ⟨"server", c, "setlist", .playlist (pyInsert pl1 ti x)⟩])) := by
  have hc' : ¬c ∉ svc := fun hx => hx hc
  constructor
  · intro hpop
    simp only [QueueMoveAPI_get, if_neg hc', get_redis_data_of_lookup hdoc, hpl, hpop]
  · intro x pl1 hpop
    simp only [QueueMoveAPI_get, if_neg hc', get_redis_data_of_lookup hdoc, hpl, hpop,
      set_redis_data_of_lookup hdoc]

/-- C8 (amended) witness: `move(4, 0)` on the 5-element playlist puts the
last element first with the rest in order, and `move(9, 0)` fails with an
index error leaving the stored playlist untouched. -/
theorem c8_move_semantics_witness :
    QueueMoveAPI_get ["trance"] rPl5 "trance" 4 0 =
      (.ok 201, ⟨[("trance", ⟨none, some [eL5, eL1, eL2, eL3, eL4]⟩)], some (some [])⟩,
       [.persist "trance" [eL5, eL1, eL2, eL3, eL4],
        .notify ⟨"server", "trance", "setlist", .playlist [eL5, eL1, eL2, eL3, eL4]⟩]) ∧
    QueueMoveAPI_get ["trance"] rPl5 "trance" 9 0 = (.pyError, rPl5, []) := by
  constructor
  · exact (c8_move_semantics ["trance"] rPl5 "trance" ⟨none, some [eL1, eL2, eL3, eL4, eL5]⟩
      [eL1, eL2, eL3, eL4, eL5] 4 0 (by decide) rfl rfl).2 eL5 [eL1, eL2, eL3, eL4] (by decide)
  · exact (c8_move_semantics ["trance"] rPl5 "trance" ⟨none, some [eL1, eL2, eL3, eL4, eL5]⟩
      [eL1, eL2, eL3, eL4, eL5] 9 0 (by decide) rfl rfl).1 (by decide)

/-- C6 counterexample: the claim says every successful playlist mutation —
including the on-stop append — triggers a Daemon Notifier call after
persisting.  A successful on-stop replenishment persists the appended
playlist but emits no notifier call at all (the new track is returned in
the HTTP response to the daemon instead): its effect trace is exactly one
persist and no notify. -/
theorem c6_on_stop_append_without_notify :
    CallbackOnStopAPI_post ["trance"] [trC3] rIdlePl2 "trance" T0 [trC3] =
      (.ok 200, [trC3],
       ⟨[("trance", ⟨none, some [eA1, eB2, ⟨3, "/srv/media/c.mp3", "C", "T3"⟩]⟩)],
        some (some [])⟩,
       [.persist "trance" [eA1, eB2, ⟨3, "/srv/media/c.mp3", "C", "T3"⟩]]) :=
  rfl

/-- C6 (amended): every successful `enqueueAt`/`move`/`removeAt` first
persists the new sequence and then emits exactly one Daemon Notifier call —
`"setlist"` with the full resulting playlist for enqueue/move, `"unqueue"`
with the delta `{index_at}` for remove — the persisted store state is part
of the result independently of the fire-and-forget notification (dispatched
with no callback, so no delivery outcome can roll the persisted state
back); the successful on-stop append persists the new sequence but makes no
Daemon Notifier call. -/
theorem c6_mutations_persist_then_notify (svc : List String) (r : Redis) (c : String)
    (doc : ChannelState) (pl : List Entry)
    (hc : c ∈ svc) (hdoc : r.lookup c = some doc) (hpl : doc.playlist = some pl) :
    (∀ db tid track i, dbGet db tid = some track →
      (get_is_pending_remove r tid).1 = false →
      QueueINAPI_get svc db r c tid i =
        (.ok 201,
         ((get_is_pending_remove r tid).2).store c
           { doc with playlist := some (pyInsert pl i (entryOf track)) },
         [.persist c (pyInsert pl i (entryOf track)),
          .notify ⟨"server", c, "setlist", .playlist (pyInsert pl i (entryOf track))⟩])) ∧
    (∀ fi ti x pl1, pyPop pl fi = some (x, pl1) →
      QueueMoveAPI_get svc r c fi ti =
        (.ok 201, r.store c { doc with playlist := some (pyInsert pl1 ti x) },
         [.persist c (pyInsert pl1 ti x),
          .notify ⟨"server", c, "setlist", .playlist (pyInsert pl1 ti x)⟩])) ∧
    (∀ i x pl1, pyPop pl i = some (x, pl1) →
      QueueOUTAPI_delete svc r c i =
        (.ok 202, r.store c { doc with playlist := some pl1 },
         [.persist c pl1, .notify ⟨"server", c, "unqueue", .indexAt i⟩])) ∧
    (∀ db now sample next rest db1 r1 doc1 pl1,
      remove_pending_track db r = (db1, r1) →
      sample = next :: rest →
      r1.lookup c = some doc1 → doc1.playlist = some pl1 →
      CallbackOnStopAPI_post svc db r c now sample =
        (.ok 200, db1, r1.store c { doc1 with playlist := some (pl1 ++ [entryOf next]) },
         [.persist c (pl1 ++ [entryOf next])])) := by
  have hc' : ¬c ∉ svc := fun hx => hx hc
  refine ⟨?_, ?_, ?_, ?_⟩
  · intro db tid track i hdb hip
    have hlk : (get_is_pending_remove r tid).2.lookup c = some doc := by
      rw [get_is_pending_remove_lookup]; exact hdoc
    simp only [QueueINAPI_get, if_neg hc', hdb, hip, Bool.false_eq_true, if_false,
      get_redis_data_of_lookup hlk, hpl, set_redis_data_of_lookup hlk]
  · intro fi ti x pl1 hpop
    simp only [QueueMoveAPI_get, if_neg hc', get_redis_data_of_lookup hdoc, hpl, hpop,
      set_redis_data_of_lookup hdoc]
  · intro i x pl1 hpop
    simp only [QueueOUTAPI_delete, if_neg hc', get_redis_data_of_lookup hdoc, hpl, hpop,
      set_redis_data_of_lookup hdoc]
  · intro db now sample next rest db1 r1 doc1 pl1 hrp hsample hdoc1 hpl1
    subst hsample
    simp only [CallbackOnStopAPI_post, if_neg hc', hrp, get_random_track,
      get_redis_data_of_lookup hdoc1, hpl1, set_redis_data_of_lookup hdoc1]

/-- C6 (amended) witness: the three queue mutations on the two-entry
playlist persist and then notify with the specified payloads, and a
successful on-stop append persists without notifying. -/
theorem c6_mutations_persist_then_notify_witness :
    QueueINAPI_get ["trance"] [trC3] rIdlePl2 "trance" 3 0 =
      (.ok 201, ⟨[("trance", ⟨none,
          some [⟨3, "/srv/media/c.mp3", "C", "T3"⟩, eA1, eB2]⟩)], some (some [])⟩,
       [.persist "trance" [⟨3, "/srv/media/c.mp3", "C", "T3"⟩, eA1, eB2],
        .notify ⟨"server", "trance", "setlist",
          .playlist [⟨3, "/srv/media/c.mp3", "C", "T3"⟩, eA1, eB2]⟩]) ∧
    QueueMoveAPI_get ["trance"] rIdlePl2 "trance" 0 1 =
      (.ok 201, ⟨[("trance", ⟨none, some [eB2, eA1]⟩)], some (some [])⟩,
       [.persist "trance" [eB2, eA1],
        .notify ⟨"server", "trance", "setlist", .playlist [eB2, eA1]⟩]) ∧
    QueueOUTAPI_delete ["trance"] rIdlePl2 "trance" 0 =
      (.ok 202, ⟨[("trance", ⟨none, some [eB2]⟩)], some (some [])⟩,
       [.persist "trance" [eB2], .notify ⟨"server", "trance", "unqueue", .indexAt 0⟩]) ∧
    CallbackOnStopAPI_post ["trance"] [trC3] rIdlePl2 "trance" T0 [trC3] =
      (.ok 200, [trC3],
       ⟨[("trance", ⟨none, some [eA1, eB2, ⟨3, "/srv/media/c.mp3", "C", "T3"⟩]⟩)],
        some (some [])⟩,
       [.persist "trance" [eA1, eB2, ⟨3, "/srv/media/c.mp3", "C", "T3"⟩]]) := by
  have h := c6_mutations_persist_then_notify ["trance"] rIdlePl2 "trance"
    ⟨none, some [eA1, eB2]⟩ [eA1, eB2] (by decide) rfl rfl
  refine ⟨?_, ?_, ?_, ?_⟩
  · exact h.1 [trC3] 3 trC3 0 rfl rfl
  · exact h.2.1 0 1 eA1 [eB2] (by decide)
  · exact h.2.2.1 0 eA1 [eB2] (by decide)
  · exact h.2.2.2 [trC3] T0 [trC3] trC3 [] [trC3] rIdlePl2 ⟨none, some [eA1, eB2]⟩
      [eA1, eB2] rfl rfl rfl rfl

/-- C10: for a channel whose stored document has `playlist` equal to null
(the lazily-created default), every queue mutation — enqueueAt, move,
removeAt, and the on-stop append (whenever a replenishment track was drawn)
— fails with an error instead of treating the playlist as empty, and the
stored playlist stays null; in particular `enqueueAt(channel, 0, entry)` on
such a channel never produces a one-element playlist. -/
theorem c10_null_playlist_mutations_error (svc : List String) (db : List Track)
    (r : Redis) (c : String) (doc : ChannelState)
    (hdoc : r.lookup c = some doc) (hpl : doc.playlist = none) :
    (∀ tid i, ((QueueINAPI_get svc db r c tid i).1).isError = true ∧
       playlistOf (QueueINAPI_get svc db r c tid i).2.1 c = none) ∧
    (∀ fi ti, ((QueueMoveAPI_get svc r c fi ti).1).isError = true ∧
       playlistOf (QueueMoveAPI_get svc r c fi ti).2.1 c = none) ∧
    (∀ i, ((QueueOUTAPI_delete svc r c i).1).isError = true ∧
       playlistOf (QueueOUTAPI_delete svc r c i).2.1 c = none) ∧
    (∀ now sample, sample ≠ [] →
       ((CallbackOnStopAPI_post svc db r c now sample).1).isError = true ∧
       playlistOf (CallbackOnStopAPI_post svc db r c now sample).2.2.1 c = none) := by
  have hplr : playlistOf r c = none := by simp [playlistOf, hdoc, hpl]
  refine ⟨?_, ?_, ?_, ?_⟩
  · intro tid i
    by_cases hcs : c ∉ svc
    · simp only [QueueINAPI_get, if_pos hcs]
      exact ⟨rfl, hplr⟩
    · cases hdb : dbGet db tid with
      | none =>
        simp only [QueueINAPI_get, if_neg hcs, hdb]
        exact ⟨rfl, hplr⟩
      | some track =>
        have hlk : (get_is_pending_remove r tid).2.lookup c = some doc := by
          rw [get_is_pending_remove_lookup]; exact hdoc
        have hplk : playlistOf (get_is_pending_remove r tid).2 c = none := by
          simp [playlistOf, hlk, hpl]
        cases hip : (get_is_pending_remove r tid).1 with
        | true =>
          simp only [QueueINAPI_get, if_neg hcs, hdb, hip, if_true]
          exact ⟨rfl, hplk⟩
        | false =>
          simp only [QueueINAPI_get, if_neg hcs, hdb, hip, Bool.false_eq_true, if_false,
            get_redis_data_of_lookup hlk, hpl]
          exact ⟨rfl, hplk⟩
  · intro fi ti
    by_cases hcs : c ∉ svc
    · simp only [QueueMoveAPI_get, if_pos hcs]
      exact ⟨rfl, hplr⟩
    · simp only [QueueMoveAPI_get, if_neg hcs, get_redis_data_of_lookup hdoc, hpl]
      exact ⟨rfl, hplr⟩
  · intro i
    by_cases hcs : c ∉ svc
    · simp only [QueueOUTAPI_delete, if_pos hcs]
      exact ⟨rfl, hplr⟩
    · simp only [QueueOUTAPI_delete, if_neg hcs, get_redis_data_of_lookup hdoc, hpl]
      exact ⟨rfl, hplr⟩
  · intro now sample hsample
    by_cases hcs : c ∉ svc
    · simp only [CallbackOnStopAPI_post, if_pos hcs]
      exact ⟨rfl, hplr⟩
    · cases hs : remove_pending_track db r with
      | mk db1 r1 =>
        have hevol : RedisEvol r r1 := by
          have := remove_pending_track_evol db r
          rw [hs] at this
          exact this
        have hpl1 : playlistOf r1 c = none := hevol.playlistOf_none hplr
        have hsome : (r1.lookup c).isSome := hevol.lookup_isSome (by simp [hdoc])
        obtain ⟨doc1, hdoc1⟩ : ∃ d, r1.lookup c = some d := by
          cases hl1 : r1.lookup c with
          | none => rw [hl1] at hsome; cases hsome
          | some d => exact ⟨d, rfl⟩
        have hpld1 : doc1.playlist = none := by
          unfold playlistOf at hpl1
          rw [hdoc1] at hpl1
          simpa using hpl1
        cases sample with
        | nil => cases hsample rfl
        | cons next rest =>
          simp only [CallbackOnStopAPI_post, if_neg hcs, hs, get_random_track,
            get_redis_data_of_lookup hdoc1, hpld1]
          exact ⟨rfl, by simp [playlistOf, hdoc1, hpld1]⟩

/-- C10 witness at the default-state channel "trance"
(`{now_playing: null, playlist: null}`): enqueue, move, remove and the
on-stop append all error and the stored playlist stays null. -/
theorem c10_null_playlist_mutations_error_witness :
    ((QueueINAPI_get ["trance"] [trA1] rNullPl "trance" 1 0).1).isError = true ∧
    playlistOf (QueueINAPI_get ["trance"] [trA1] rNullPl "trance" 1 0).2.1 "trance"
      = none ∧
    ((QueueMoveAPI_get ["trance"] rNullPl "trance" 4 0).1).isError = true ∧
    ((QueueOUTAPI_delete ["trance"] rNullPl "trance" 0).1).isError = true ∧
    ((CallbackOnStopAPI_post ["trance"] [trA1] rNullPl "trance" T0 [trA1]).1).isError
      = true := by
  have h := c10_null_playlist_mutations_error ["trance"] [trA1] rNullPl "trance"
    ⟨none, none⟩ rfl rfl
  exact ⟨(h.1 1 0).1, (h.1 1 0).2, (h.2.1 4 0).1, (h.2.2.1 0).1,
    (h.2.2.2 T0 [trA1] (by simp)).1⟩

/-- C4 counterexample: the claim says a delete request for a now-playing
track not yet in the pending list adds its id and surfaces Reserved.  On a
store where the `pending_remove` key was never accessed, the first request
instead dies with the `TypeError` of subscripting the `None` returned by
`get_pending_remove`, and no id is added (the key is merely initialized to a
null list). -/
theorem c4_fresh_store_delete_type_error :
    (delete_track [trA1] rNowA_noPending trA1 false).1 = .typeError ∧
    (delete_track [trA1] rNowA_noPending trA1 false).2.2.pending = some none :=
  ⟨rfl, rfl⟩

/-- C4 (amended): provided the pending-removal document already exists in
the store, a delete request for a track that is some channel's current
`now_playing` and whose id is not yet listed appends the id and surfaces
Reserved; an immediately repeated request surfaces AlreadyReserved without
touching the list; a subsequent reconciliation pass deletes the track's
catalog row and leaves the pending list empty. -/
theorem c4_reserve_lifecycle (db : List Track) (r : Redis) (t : Track)
    (pl0 : Option (List Int)) (hq : r.pending = some pl0)
    (hni : t.id ∉ pl0.getD []) (hex : ∃ c ∈ t.channel, nowId r c = some t.id) :
    ∀ o1 db1 r1, delete_track db r t false = (o1, db1, r1) →
      o1 = .reservedPending ∧ db1 = db ∧
      r1.pending = some (some (pl0.getD [] ++ [t.id])) ∧
      (∀ o2 db2 r2, delete_track db1 r1 t false = (o2, db2, r2) →
        o2 = .alreadyReserved ∧ db2 = db1 ∧ r2.pending = r1.pending ∧
        (∀ db3 r3, remove_pending_track db2 r2 = (db3, r3) →
          (∀ x ∈ db3, x.id ≠ t.id) ∧ r3.pending = some (some []))) := by
  intro o1 db1 r1 h1
  obtain ⟨hres1, hres2⟩ := channels_reserve t t.channel r pl0 hq hni hex
  unfold delete_track at h1
  cases hdc : delete_channels t false t.channel r with
  | mk o r' =>
    rw [hdc] at h1 hres1 hres2
    simp only at hres1 hres2
    subst hres1
    simp only [Prod.mk.injEq] at h1
    obtain ⟨ho1, hdb1, hr1⟩ := h1
    subst ho1; subst hdb1; subst hr1
    refine ⟨rfl, rfl, hres2, ?_⟩
    have hnow' : ∀ c', nowId r' c' = nowId r c' := by
      intro c'
      have := channels_nowId t false t.channel r c'
      rw [hdc] at this
      exact this
    have hex2 : ∃ c ∈ t.channel, nowId r' c = some t.id := by
      rcases hex with ⟨c, hc, hcn⟩
      exact ⟨c, hc, by rw [hnow' c]; exact hcn⟩
    obtain ⟨ha1, ha2⟩ := channels_already t t.channel r'
      (pl0.getD [] ++ [t.id]) hres2 (by simp) hex2
    intro o2 db2 r2 h2
    unfold delete_track at h2
    cases hdc2 : delete_channels t false t.channel r' with
    | mk ob rb =>
      rw [hdc2] at h2 ha1 ha2
      simp only at ha1 ha2
      subst ha1
      simp only [Prod.mk.injEq] at h2
      obtain ⟨ho2, hdb2, hr2⟩ := h2
      subst ho2; subst hdb2; subst hr2
      refine ⟨rfl, rfl, by rw [ha2, hres2], ?_⟩
      intro db3 r3 h3
      have hrm := remove_pending_track_removes db rb (pl0.getD [] ++ [t.id]) t.id ha2
        (by simp)
      have hfin := remove_pending_track_final db rb (pl0.getD [] ++ [t.id]) ha2
      rw [h3] at hrm hfin
      exact ⟨hrm, hfin⟩

/-- C4 (amended) witness: with the pending document present (null list) and
track 1 now playing on "trance", the first request reserves, the second
reports AlreadyReserved, and reconciliation purges the row and empties the
list. -/
theorem c4_reserve_lifecycle_witness :
    (delete_track [trA1] rNowA_nullPending trA1 false).1 = .reservedPending ∧
    (delete_track [trA1] rNowA_pending1 trA1 false).1 = .alreadyReserved ∧
    (∀ x ∈ (remove_pending_track [trA1] rNowA_pending1).1, x.id ≠ trA1.id) ∧
    (remove_pending_track [trA1] rNowA_pending1).2.pending = some (some []) := by
  have h := c4_reserve_lifecycle [trA1] rNowA_nullPending trA1 none rfl (by decide)
    ⟨"trance", by decide, rfl⟩
  have h1 := h .reservedPending [trA1] rNowA_pending1 rfl
  have h2 := h1.2.2.2 .alreadyReserved [trA1] rNowA_pending1 rfl
  have h3 := h2.2.2.2 (remove_pending_track [trA1] rNowA_pending1).1
    (remove_pending_track [trA1] rNowA_pending1).2 rfl
  exact ⟨rfl, rfl, h3.1, h3.2⟩

end RadioModel
